import Mathlib

/-!
Verification of the schedule subsystem of the mailmerge repository
(`src/mailmerge_cli/cli.py`): the cron matcher and next-run search, the
due-time state machine, the schedule normalizer (macros / cron strings /
ISO-8601 values), the launchd and systemd backend converters, and the
crontab removal routine.

Modelling conventions:
* Instants are naive local wall-clock datetimes, encoded as a count of
  seconds since 0001-01-01T00:00 in the proleptic Gregorian calendar
  (the calendar of Python `datetime`).  Minute indices (seconds / 60)
  are used where a value is known to be minute-aligned.
* Calendar decomposition (`ord2ymd`, `pyWeekday`) models the CPython
  `datetime` ordinal/date conversion.
* Timezones are modelled as fixed UTC offsets in minutes, which is what
  the claims exercise; `datetime.now()` is passed in explicitly.
* Fallible Python code (exceptions) is modelled with `Option` / `Except`.
-/

namespace Mailmerge

/-- Decidable equality for `Except`, used to evaluate the model on
concrete inputs. -/
instance {ε α : Type} [DecidableEq ε] [DecidableEq α] : DecidableEq (Except ε α) :=
  fun a b =>
    match a, b with
    | .ok x, .ok y =>
      if h : x = y then .isTrue (h ▸ rfl)
      else .isFalse (fun he => h (Except.ok.inj he))
    | .error x, .error y =>
      if h : x = y then .isTrue (h ▸ rfl)
      else .isFalse (fun he => h (Except.error.inj he))
    | .ok _, .error _ => .isFalse (fun he => Except.noConfusion he)
    | .error _, .ok _ => .isFalse (fun he => Except.noConfusion he)

/-! ### Calendar arithmetic (model of CPython `datetime` date handling) -/

/-- Leap-year test of the proleptic Gregorian calendar. -/
def isLeapYear (y : Nat) : Bool :=
  (y % 4 == 0 && y % 100 != 0) || y % 400 == 0

/-- Number of days in month `m` (1–12) given the year's leap status. -/
def daysInMonth (leap : Bool) (m : Nat) : Nat :=
  if m == 2 then (if leap then 29 else 28)
  else if m == 4 || m == 6 || m == 9 || m == 11 then 30
  else 31

/-- Walk the months of a year to convert a 0-based day-of-year into a
(month, day-of-month) pair; `fuel` bounds the walk at the 12 months. -/
def monthDayFromDoy (leap : Bool) : Nat → Nat → Nat → Nat × Nat
  | 0, m, d => (m, d + 1)
  | fuel + 1, m, d =>
    let dim := daysInMonth leap m
    if d < dim then (m, d + 1) else monthDayFromDoy leap fuel (m + 1) (d - dim)

/-- Proleptic-Gregorian ordinal (0001-01-01 = 1) to (year, month, day);
model of CPython `datetime._ord2ymd`, using the 400/100/4/1-year cycle
decomposition. -/
def ord2ymd (ordinal : Nat) : Nat × Nat × Nat :=
  let n := ordinal - 1
  let n400 := n / 146097
  let r1 := n % 146097
  let n100 := r1 / 36524
  let r2 := r1 % 36524
  let n4 := r2 / 1461
  let r3 := r2 % 1461
  let n1 := r3 / 365
  let r4 := r3 % 365
  let year := 400 * n400 + 100 * n100 + 4 * n4 + n1 + 1
  if n1 == 4 || n100 == 4 then (year - 1, 12, 31)
  else
    let md := monthDayFromDoy (isLeapYear year) 12 1 r4
    (year, md.1, md.2)

/-- Days before January 1 of year `y` (so `daysBeforeYear 1 = 0`). -/
def daysBeforeYear (y : Nat) : Nat :=
  365 * (y - 1) + (y - 1) / 4 + (y - 1) / 400 - (y - 1) / 100

/-- Days before the first of month `m` in a year of the given leap status. -/
def daysBeforeMonth (leap : Bool) (m : Nat) : Nat :=
  (List.range (m - 1)).foldl (fun a i => a + daysInMonth leap (i + 1)) 0

/-- (year, month, day) to proleptic-Gregorian ordinal; model of CPython
`datetime._ymd2ord`. -/
def ymd2ord (y m d : Nat) : Nat :=
  daysBeforeYear y + daysBeforeMonth (isLeapYear y) m + d

/-- Python `date.weekday()` of an ordinal: Monday = 0 … Sunday = 6. -/
def pyWeekday (ordinal : Nat) : Nat := (ordinal + 6) % 7

/-! Accessors of a minute index (minutes since 0001-01-01T00:00). -/

def minuteOf (t : Nat) : Nat := t % 60
def hourOf (t : Nat) : Nat := t / 60 % 24
def ordinalOf (t : Nat) : Nat := t / 1440 + 1
def dayOf (t : Nat) : Nat := (ord2ymd (ordinalOf t)).2.2
def monthOf (t : Nat) : Nat := (ord2ymd (ordinalOf t)).2.1

/-! ### Python string helpers used by the schedule code -/

/-- Python `str.strip()` on a character list. -/
def pyStrip (l : List Char) : List Char :=
  ((l.dropWhile Char.isWhitespace).reverse.dropWhile Char.isWhitespace).reverse

/-- Worker of `pySplit`: accumulates the current word (reversed). -/
def splitWsAux : List Char → List Char → List (List Char)
  | [], acc => if acc.isEmpty then [] else [acc.reverse]
  | c :: cs, acc =>
    if c.isWhitespace then
      if acc.isEmpty then splitWsAux cs [] else acc.reverse :: splitWsAux cs []
    else splitWsAux cs (c :: acc)

/-- Python `str.split()` with no argument: split on whitespace runs,
discarding empty words. -/
def pySplit (l : List Char) : List (List Char) := splitWsAux l []

/-- Numeric value of an all-digit character list (most significant first). -/
def digitsVal (l : List Char) : Nat :=
  l.foldl (fun a c => a * 10 + (c.toNat - 48)) 0

/-- Python `str.isdigit()` restricted to ASCII: nonempty and all digits. -/
def isDigits (l : List Char) : Bool := !l.isEmpty && l.all Char.isDigit

/-- Parse an unsigned decimal numeral. -/
def pyIntOfDigits (l : List Char) : Option Nat :=
  if isDigits l then some (digitsVal l) else none

/-- Model of Python `int(str)` on whitespace-free input: optional sign
followed by digits; `none` models the `ValueError`. -/
def pyInt (l : List Char) : Option Int :=
  match l with
  | '+' :: r => (pyIntOfDigits r).map Int.ofNat
  | '-' :: r => (pyIntOfDigits r).map (fun n => -(n : Int))
  | _ => (pyIntOfDigits l).map Int.ofNat

/-- Decimal digits of `n`, most significant first; `fuel` bounds the
recursion on `n / 10`. -/
def natToCharsAux : Nat → Nat → List Char
  | 0, _ => []
  | fuel + 1, n =>
    if n < 10 then [Char.ofNat (48 + n)]
    else natToCharsAux fuel (n / 10) ++ [Char.ofNat (48 + n % 10)]

/-- Decimal rendering of a natural number. -/
def natToChars (n : Nat) : List Char := natToCharsAux (n + 1) n

def natToStr (n : Nat) : String := String.mk (natToChars n)

/-! ### Cron spec parsing and matching (`parse_cron_value`, `parse_cron_spec`,
`cron_matches`, `next_run_time` of `src/mailmerge_cli/cli.py`) -/

/-- Errors of the next-run computation: `badSpec` models the `ValueError`
raised while parsing the spec (wrong field count or non-integer field),
`unsat` the `RuntimeError` raised when the 366-day scan finds no match. -/
inductive CronError
  | badSpec
  | unsat
deriving DecidableEq, Repr

/-- The five parsed cron fields; `none` is the `*` wildcard. -/
structure CronFields where
  minute : Option Int
  hour : Option Int
  day : Option Int
  month : Option Int
  weekday : Option Int
deriving DecidableEq, Repr

/-- `parse_cron_value`: `"*"` is the wildcard, anything else goes through
`int(...)`; the outer `none` models the `ValueError` of `int`. -/
def parse_cron_value (l : List Char) : Option (Option Int) :=
  if l = ['*'] then some none
  else (pyInt l).map some

/-- `parse_cron_spec`: split on whitespace and unpack exactly five fields;
`none` models the unpack or `int` `ValueError`. -/
def parse_cron_spec (spec : String) : Option CronFields :=
  match pySplit spec.data with
  | [a, b, c, d, e] =>
    match parse_cron_value a, parse_cron_value b, parse_cron_value c,
        parse_cron_value d, parse_cron_value e with
    | some mi, some h, some dy, some mo, some w => some ⟨mi, h, dy, mo, w⟩
    | _, _, _, _, _ => none
  | _ => none

/-- `cron_matches` on the minute index `t`: each fixed field must equal the
corresponding component; the weekday comparison converts Python's
Monday-0 weekday to the cron Sunday-0 convention and reduces the spec
value modulo 7 (so 7 means Sunday). -/
def cron_matches (t : Nat) (f : CronFields) : Bool :=
  (match f.minute with | none => true | some v => ((minuteOf t : Int) == v)) &&
  (match f.hour with | none => true | some v => ((hourOf t : Int) == v)) &&
  (match f.month with | none => true | some v => ((monthOf t : Int) == v)) &&
  (match f.day with | none => true | some v => ((dayOf t : Int) == v)) &&
  (match f.weekday with
   | none => true
   | some v => ((((pyWeekday (ordinalOf t) + 1) % 7 : Nat) : Int) == v % 7))

/-- Minute-by-minute scan: try `fuel` consecutive minute indices starting
at `cand`, returning the first match. -/
def scanFrom (f : CronFields) : Nat → Nat → Option Nat
  | 0, _ => none
  | fuel + 1, cand =>
    if cron_matches cand f then some cand else scanFrom f fuel (cand + 1)

/-- Number of candidates examined by `next_run_time`: the loop runs while
`candidate ≤ candidate₀ + 366 days`, i.e. over `366 * 1440 + 1` minutes. -/
def searchWindow : Nat := 527041

/-- `next_run_time`: parse the spec, then scan minute-by-minute starting at
`start + 1 minute` truncated to the minute (`startSec / 60 + 1`), for at
most 366 days past the first candidate.  Input is in seconds, the result
is the matching minute as seconds (`second = 0`). -/
def next_run_time (spec : String) (startSec : Nat) : Except CronError Nat :=
  match parse_cron_spec spec with
  | none => .error .badSpec
  | some f =>
    match scanFrom f searchWindow (startSec / 60 + 1) with
    | some c => .ok (c * 60)
    | none => .error .unsat

/-- Whether the minute-aligned instant `tSec` satisfies the cron spec
string (false when the spec does not parse). -/
def cronMatchesSpec (spec : String) (tSec : Nat) : Bool :=
  match parse_cron_spec spec with
  | some f => cron_matches (tSec / 60) f
  | none => false

/-! ### Backend converters (`_parse_numeric_field`,
`cron_to_launchd_interval`, `cron_to_systemd_calendar`) -/

/-- Errors of the backend converters, each modelling a `ValueError` raise:
wrong field count at the 5-way unpack, a wildcard where a fixed value is
required or a non-digit field, the day-of-month/weekday conflict, or a
weekday outside 0–7. -/
inductive ConvError
  | fieldCount
  | badField
  | dayWeekdayConflict
  | badWeekday
deriving DecidableEq, Repr

/-- `_parse_numeric_field`: `*` is allowed (as `none`) only when
`allow_wildcard`; otherwise the field must pass `str.isdigit`. -/
def parse_numeric_field (field : List Char) (allowWildcard : Bool) :
    Except ConvError (Option Nat) :=
  if field = ['*'] then
    if allowWildcard then .ok none else .error .badField
  else if isDigits field then .ok (some (digitsVal field))
  else .error .badField

/-- The launchd `StartCalendarInterval` dictionary: `Minute` and `Hour`
always present, `Day`/`Month`/`Weekday` present exactly when fixed. -/
structure LaunchdInterval where
  minute : Nat
  hour : Nat
  day : Option Nat
  month : Option Nat
  weekday : Option Nat
deriving DecidableEq, Repr

/-- `cron_to_launchd_interval`. -/
def cron_to_launchd_interval (spec : String) : Except ConvError LaunchdInterval :=
  match pySplit spec.data with
  | [mi, h, d, mo, w] =>
    match parse_numeric_field mi false with
    | .error e => .error e
    | .ok miv =>
      match parse_numeric_field h false with
      | .error e => .error e
      | .ok hv =>
        match parse_numeric_field d true with
        | .error e => .error e
        | .ok dv =>
          match parse_numeric_field mo true with
          | .error e => .error e
          | .ok mov =>
            match parse_numeric_field w true with
            | .error e => .error e
            | .ok wv =>
              if dv.isSome && wv.isSome then .error .dayWeekdayConflict
              else
                match miv, hv with
                | some mval, some hval => .ok ⟨mval, hval, dv, mov, wv⟩
                | _, _ => .error .badField
  | _ => .error .fieldCount

/-- `f"{value:02d}"` for the nonnegative values produced by
`_parse_numeric_field`, with `*` for an absent value. -/
def pad (v : Option Nat) : String :=
  match v with
  | none => "*"
  | some n => if n < 10 then "0" ++ natToStr n else natToStr n

/-- Two-digit zero-padded rendering of a fixed value. -/
def pad2 (n : Nat) : String := if n < 10 then "0" ++ natToStr n else natToStr n

/-- The `weekday_map` of `cron_to_systemd_calendar`. -/
def weekdayName (w : Nat) : Option String :=
  if w == 0 then some "Sun"
  else if w == 1 then some "Mon"
  else if w == 2 then some "Tue"
  else if w == 3 then some "Wed"
  else if w == 4 then some "Thu"
  else if w == 5 then some "Fri"
  else if w == 6 then some "Sat"
  else if w == 7 then some "Sun"
  else none

/-- `cron_to_systemd_calendar`. -/
def cron_to_systemd_calendar (spec : String) : Except ConvError String :=
  match pySplit spec.data with
  | [mi, h, d, mo, w] =>
    match parse_numeric_field mi false with
    | .error e => .error e
    | .ok miv =>
      match parse_numeric_field h false with
      | .error e => .error e
      | .ok hv =>
        match parse_numeric_field d true with
        | .error e => .error e
        | .ok dv =>
          match parse_numeric_field mo true with
          | .error e => .error e
          | .ok mov =>
            match parse_numeric_field w true with
            | .error e => .error e
            | .ok wv =>
              if dv.isSome && wv.isSome then .error .dayWeekdayConflict
              else
                match miv, hv with
                | some mval, some hval =>
                  let timePart := pad2 hval ++ ":" ++ pad2 mval ++ ":00"
                  match wv with
                  | some wval =>
                    match weekdayName wval with
                    | none => .error .badWeekday
                    | some name =>
                      .ok (name ++ " *-" ++ pad mov ++ "-* " ++ timePart)
                  | none =>
                    .ok ("*-" ++ pad mov ++ "-" ++ pad dv ++ " " ++ timePart)
                | _, _ => .error .badField
  | _ => .error .fieldCount

/-! ### Due-time state machine (`initialize_schedule_state`,
`update_schedule_state`).  The JSON state file is modelled by
`StateData`; the file as a whole by `Option StateData` (`none` covers a
missing or unreadable file, both of which the code treats as `{}`).
Wall-clock `now` (already truncated to the minute by the code) is passed
explicitly, in seconds. -/

/-- The persisted `next_due` entry: missing (or falsy), present but not
parseable as an ISO timestamp, or a parsed timestamp in seconds. -/
inductive StoredDue
  | absent
  | invalid
  | val (t : Nat)
deriving DecidableEq, Repr

/-- The persisted `last_run` entry: key missing, or present with an
optional timestamp (`none` is JSON `null`). -/
inductive StoredLast
  | absent
  | pres (t : Option Nat)
deriving DecidableEq, Repr

/-- The parsed contents of a schedule state file. -/
structure StateData where
  nextDue : StoredDue
  lastRun : StoredLast
deriving DecidableEq, Repr

/-- The fresh-computation path of `initialize_schedule_state`: compute
`next_due = next_run_time(spec, now - 1 minute)` and persist it with a
null `last_run`; the returned `Option StateData` is the written file. -/
def initFreshState (spec : String) (now : Nat) :
    Except CronError (Nat × Option StateData) :=
  match next_run_time spec (now - 60) with
  | .error e => .error e
  | .ok nd => .ok (nd, some ⟨.val nd, .pres none⟩)

/-- `initialize_schedule_state`: with an existing readable file and no
overwrite, trust a parseable stored `next_due` (writing nothing, hence
the `none` in the result); otherwise compute afresh and write. -/
def initialize_schedule_state (spec : String) (now : Nat)
    (file : Option StateData) (overwrite : Bool) :
    Except CronError (Nat × Option StateData) :=
  match file, overwrite with
  | some data, false =>
    match data.nextDue with
    | .val t => .ok (t, none)
    | _ => initFreshState spec now
  | _, _ => initFreshState spec now

/-- `update_schedule_state`: load the state (missing/unreadable ↦ `{}`),
recover `next_due` (recomputing from `now - 1 minute` when absent or
unparseable), and compare against `now`.  Due: persist
`last_run = now` and `next_due = next_run_time(spec, previous next_due)`.
Not due: persist the state, only filling in missing keys
(`dict.setdefault`).  Returns `(is_due, next_due, written file)`. -/
def update_schedule_state (spec : String) (now : Nat)
    (file : Option StateData) :
    Except CronError (Bool × Nat × StateData) :=
  let data := file.getD ⟨.absent, .absent⟩
  let nd := match data.nextDue with
    | .val t => Except.ok t
    | _ => next_run_time spec (now - 60)
  match nd with
  | .error e => .error e
  | .ok nextDue =>
    if nextDue ≤ now then
      match next_run_time spec nextDue with
      | .error e => .error e
      | .ok nextAfter =>
        .ok (true, nextAfter, ⟨.val nextAfter, .pres (some now)⟩)
    else
      let nd' := match data.nextDue with
        | .absent => StoredDue.val nextDue
        | x => x
      let lr' := match data.lastRun with
        | .absent => StoredLast.pres none
        | x => x
      .ok (false, nextDue, ⟨nd', lr'⟩)

/-! ### ISO-8601 parsing (model of `datetime.fromisoformat` /
`time.fromisoformat` on the extended `YYYY-MM-DD[THH:MM[:SS[.ffffff]]][±HH:MM]`
and `HH:MM[:SS[.ffffff]][±HH:MM]` forms used by the schedule syntax) -/

/-- A parsed aware-or-naive datetime value; the timezone, when present,
is a fixed UTC offset in minutes. -/
structure PyDateTime where
  year : Nat
  month : Nat
  day : Nat
  hour : Nat
  minute : Nat
  second : Nat
  tzOffMin : Option Int
deriving DecidableEq, Repr

/-- A parsed time-of-day value. -/
structure PyTime where
  hour : Nat
  minute : Nat
  second : Nat
  tzOffMin : Option Int
deriving DecidableEq, Repr

/-- Read exactly `k` ASCII digits off the front of the list. -/
def takeDigits : Nat → List Char → Option (Nat × List Char)
  | 0, rest => some (0, rest)
  | _ + 1, [] => none
  | k + 1, c :: cs =>
    if c.isDigit then
      match takeDigits k cs with
      | some (v, rest) => some ((c.toNat - 48) * 10 ^ k + v, rest)
      | none => none
    else none

/-- Parse a trailing UTC offset `±HH:MM` (minutes, signed); `some (off, rest)`
on success. -/
def parseOffset (l : List Char) : Option (Int × List Char) :=
  match l with
  | '+' :: r =>
    match takeDigits 2 r with
    | some (hh, ':' :: r2) =>
      match takeDigits 2 r2 with
      | some (mm, rest) =>
        if hh < 24 && mm < 60 then some ((hh * 60 + mm : Nat), rest) else none
      | none => none
    | _ => none
  | '-' :: r =>
    match takeDigits 2 r with
    | some (hh, ':' :: r2) =>
      match takeDigits 2 r2 with
      | some (mm, rest) =>
        if hh < 24 && mm < 60 then some (-((hh * 60 + mm : Nat) : Int), rest) else none
      | none => none
    | _ => none
  | _ => none

/-- Parse `[:SS[.ffffff]]` and an optional offset, the tail of a time;
returns `(seconds, offset?)` and requires the whole input be consumed. -/
def parseSecondsAndOffset (l : List Char) : Option (Nat × Option Int) :=
  match l with
  | [] => some (0, none)
  | ':' :: r =>
    match takeDigits 2 r with
    | some (ss, rest) =>
      if ss ≥ 60 then none
      else
        match rest with
        | [] => some (ss, none)
        | '.' :: fr =>
          let frac := fr.takeWhile Char.isDigit
          let rest2 := fr.drop frac.length
          if frac.isEmpty then none
          else
            match rest2 with
            | [] => some (ss, none)
            | _ =>
              match parseOffset rest2 with
              | some (off, []) => some (ss, some off)
              | _ => none
        | _ =>
          match parseOffset rest with
          | some (off, []) => some (ss, some off)
          | _ => none
    | none => none
  | _ =>
    match parseOffset l with
    | some (off, []) => some (0, some off)
    | _ => none

/-- Parse `HH:MM` followed by `parseSecondsAndOffset`. -/
def parseTimePart (l : List Char) : Option (Nat × Nat × Nat × Option Int) :=
  match takeDigits 2 l with
  | some (hh, ':' :: r) =>
    match takeDigits 2 r with
    | some (mm, rest) =>
      if hh < 24 && mm < 60 then
        match parseSecondsAndOffset rest with
        | some (ss, off) => some (hh, mm, ss, off)
        | none => none
      else none
    | none => none
  | _ => none

/-- Model of `datetime.fromisoformat` on the extended format. -/
def pyDatetimeFromIso (l : List Char) : Option PyDateTime :=
  match takeDigits 4 l with
  | some (y, '-' :: r1) =>
    match takeDigits 2 r1 with
    | some (mo, '-' :: r2) =>
      match takeDigits 2 r2 with
      | some (d, rest) =>
        if 1 ≤ mo && mo ≤ 12 && 1 ≤ d && d ≤ daysInMonth (isLeapYear y) mo && 1 ≤ y then
          match rest with
          | [] => some ⟨y, mo, d, 0, 0, 0, none⟩
          | sep :: tl =>
            if sep == 'T' || sep == ' ' then
              match parseTimePart tl with
              | some (hh, mm, ss, off) => some ⟨y, mo, d, hh, mm, ss, off⟩
              | none => none
            else none
        else none
      | _ => none
    | _ => none
  | _ => none

/-- Model of `time.fromisoformat` on the extended format. -/
def pyTimeFromIso (l : List Char) : Option PyTime :=
  match parseTimePart l with
  | some (hh, mm, ss, off) => some ⟨hh, mm, ss, off⟩
  | none => none

/-! ### Timezone attachment and conversion.  Zones are fixed UTC offsets
in minutes; `ensure_datetime_timezone` + `astimezone` reduce to offset
arithmetic on absolute minutes. -/

/-- Wall-clock minutes of a (naive) datetime value since the calendar
origin. -/
def dtWallMinutes (dt : PyDateTime) : Nat :=
  (ymd2ord dt.year dt.month dt.day - 1) * 1440 + dt.hour * 60 + dt.minute

/-- The source zone resolution of `convert_iso_to_cron`: the value's own
offset, else the timezone hint, else the machine's local zone. -/
def resolveSourceOff (own : Option Int) (tzHint : Option Int) (localZone : Int) : Int :=
  own.getD (tzHint.getD localZone)

/-- `ensure_datetime_timezone` + `.astimezone(local_zone)` on a parsed
datetime: attach the source zone to a naive value (an aware value keeps
its own instant) and convert to the local zone; the result is the local
wall-clock minute count. -/
def localWallOfDateTime (dt : PyDateTime) (tzHint : Option Int) (localZone : Int) : Int :=
  (dtWallMinutes dt : Int) - resolveSourceOff dt.tzOffMin tzHint localZone + localZone

/-- The `"{minute} {hour} {day} {month} *"` rendering of the full
date-time branch of `convert_iso_to_cron`. -/
def dateTimeCronLine (wall : Int) : String :=
  let w := wall.toNat
  natToStr (minuteOf w) ++ " " ++ natToStr (hourOf w) ++ " " ++
    natToStr (dayOf w) ++ " " ++ natToStr (monthOf w) ++ " *"

/-- The `"{minute} {hour} * * *"` rendering of the bare time-of-day
branch. -/
def timeCronLine (wall : Int) : String :=
  let w := wall.toNat
  natToStr (minuteOf w) ++ " " ++ natToStr (hourOf w) ++ " * * *"

/-- The `candidate.endswith("Z") and candidate.count("Z") == 1` rewrite of
a trailing `Z` into `+00:00`. -/
def zRewrite (l : List Char) : List Char :=
  if l.getLast? == some 'Z' && l.count 'Z' == 1 then
    l.dropLast ++ ('+' :: ['0', '0', ':', '0', '0'])
  else l

/-- `datetime.now(source_zone).date()` as an ordinal, given the current
UTC minute count. -/
def todayOrdinalInZone (nowUtcMin : Int) (off : Int) : Nat :=
  (nowUtcMin + off).toNat / 1440 + 1

/-- `combine_time_with_timezone` (today's date in the source zone combined
with the parsed time, attached to the source zone) followed by
`.astimezone(local_zone)`: the local wall-clock minute count. -/
def localWallOfTime (tv : PyTime) (tzHint : Option Int) (localZone : Int)
    (nowUtcMin : Int) : Int :=
  let srcOff := resolveSourceOff tv.tzOffMin tzHint localZone
  let wall := (todayOrdinalInZone nowUtcMin srcOff - 1) * 1440 + tv.hour * 60 + tv.minute
  (wall : Int) - srcOff + localZone

/-- The candidate string of the bare time-of-day branch: strip, drop a
leading `T`, rewrite a trailing lone `Z`. -/
def timeCandidate (value : List Char) : List Char :=
  let tc := pyStrip value
  zRewrite (if tc.head? == some 'T' then tc.tail else tc)

/-- `convert_iso_to_cron`: try a full date-time first (after stripping and
the `Z` rewrite), else a bare time-of-day (after also stripping a leading
`T`); `none` models returning `None`. -/
def convert_iso_to_cron (value : List Char) (tzHint : Option Int)
    (localZone : Int) (nowUtcMin : Int) : Option String :=
  let candidate := zRewrite (pyStrip value)
  match pyDatetimeFromIso candidate with
  | some dt => some (dateTimeCronLine (localWallOfDateTime dt tzHint localZone))
  | none =>
    match pyTimeFromIso (timeCandidate value) with
    | some tv => some (timeCronLine (localWallOfTime tv tzHint localZone nowUtcMin))
    | none => none

/-! ### The schedule normalizer (`normalize_schedule` and the macro table
of `prepare_schedule`) -/

/-- Errors of `normalize_schedule`: an empty or multi-line expression, or
an expression that is neither cron-shaped nor ISO-shaped. -/
inductive SchedError
  | badLine
  | notRecognized
deriving DecidableEq, Repr

/-- Whether the expression contains a carriage return or newline. -/
def containsCRLF (l : List Char) : Bool :=
  l.any (fun c => c == '\r' || c == '\n')

/-- `normalize_schedule`: strip; reject empty/multi-line; pass `@`-prefixed
text and 5/6-field expressions through unmodified; otherwise attempt the
ISO interpretation. -/
def normalize_schedule (schedule : String) (tzHint : Option Int)
    (localZone : Int) (nowUtcMin : Int) : Except SchedError (String × String) :=
  let cleaned := pyStrip schedule.data
  if cleaned.isEmpty || containsCRLF cleaned then .error .badLine
  else if cleaned.head? == some '@' then .ok (String.mk cleaned, String.mk cleaned)
  else
    let fields := pySplit cleaned
    if fields.length == 5 || fields.length == 6 then
      .ok (String.mk cleaned, String.mk cleaned)
    else
      match convert_iso_to_cron cleaned tzHint localZone nowUtcMin with
      | none => .error .notRecognized
      | some c => .ok (c, String.mk cleaned)

/-- The fixed lookup table applied in `prepare_schedule` after
normalization (`macro_map`). -/
def aliasTable (s : String) : Option String :=
  if s == "@yearly" then some "0 0 1 1 *"
  else if s == "@annually" then some "0 0 1 1 *"
  else if s == "@monthly" then some "0 0 1 * *"
  else if s == "@weekly" then some "0 0 * * 0"
  else if s == "@daily" then some "0 0 * * *"
  else if s == "@midnight" then some "0 0 * * *"
  else if s == "@hourly" then some "0 * * * *"
  else none

/-- The schedule-normalization pipeline of `prepare_schedule`:
`normalize_schedule` followed by the macro-table lookup with passthrough
default (`macro_map.get(cron_spec, cron_spec)`). -/
def prepare_schedule_spec (schedule : String) (tzHint : Option Int)
    (localZone : Int) (nowUtcMin : Int) : Except SchedError (String × String) :=
  match normalize_schedule schedule tzHint localZone nowUtcMin with
  | .error e => .error e
  | .ok (cronSpec, display) => .ok ((aliasTable cronSpec).getD cronSpec, display)

/-- Whether a fixed field value lies in `[lo, hi]` (a wildcard passes). -/
def fieldInRange (lo hi : Int) (v : Option Int) : Bool :=
  match v with
  | none => true
  | some n => lo ≤ n && n ≤ hi

/-- The range invariant of the Canonical Cron Spec data model:
minute ∈ [0,59], hour ∈ [0,23], day ∈ [1,31], month ∈ [1,12],
weekday ∈ [0,7]. -/
def fieldsInRangeB (f : CronFields) : Bool :=
  fieldInRange 0 59 f.minute && fieldInRange 0 23 f.hour &&
  fieldInRange 1 31 f.day && fieldInRange 1 12 f.month &&
  fieldInRange 0 7 f.weekday

/-- Whether a canonical spec string parses and satisfies the range
invariant. -/
def specInRange (s : String) : Bool :=
  match parse_cron_spec s with
  | some f => fieldsInRangeB f
  | none => false

/-! ### Crontab removal (`remove_mailmerge_cron_jobs`).  The crontab is a
list of lines (character lists); reading and writing it are abstracted
into the argument and result.  The per-job state-file deletion side
effects do not touch the crontab and are not modelled. -/

/-- `CRON_COMMENT_PREFIX`. -/
def cronCommentHead : List Char := "# mailmerge schedule:".data

/-- `l.startswith(p)` on character lists (pattern first). -/
def startsWithChars : List Char → List Char → Bool
  | [], _ => true
  | _ :: _, [] => false
  | p :: ps, c :: cs => p == c && startsWithChars ps cs

/-- `line.startswith(CRON_COMMENT_PREFIX)`. -/
def isMarkerLine (l : List Char) : Bool := startsWithChars cronCommentHead l

/-- `not line.strip()`: the line is empty or all whitespace. -/
def isBlankLine (l : List Char) : Bool := l.all Char.isWhitespace

/-- `if new_lines and not new_lines[-1].strip(): new_lines.pop()`: drop a
blank line sitting at the end of the output being built. -/
def popBlank (acc : List (List Char)) : List (List Char) :=
  match acc.getLast? with
  | some last => if isBlankLine last then acc.dropLast else acc
  | none => acc

/-- The scanning loop of `remove_mailmerge_cron_jobs`: on a marker line,
drop the marker and the following line, pop a blank line just appended
to the output, and count one removed job; otherwise keep the line. -/
def removeCore : List (List Char) → List (List Char) → List (List Char) × Nat
  | acc, [] => (acc, 0)
  | acc, line :: rest =>
    if isMarkerLine line then
      let acc' := popBlank acc
      match rest with
      | [] => (acc', 1)
      | _ :: rest2 =>
        let r := removeCore acc' rest2
        (r.1, r.2 + 1)
    else removeCore (acc ++ [line]) rest

/-- The trailing-blank trim (`while new_lines and not new_lines[-1].strip()`). -/
def dropTrailingBlankLines (ls : List (List Char)) : List (List Char) :=
  (ls.reverse.dropWhile isBlankLine).reverse

/-- `remove_mailmerge_cron_jobs` on the crontab contents: the first result
component is `some new_lines` when the crontab is rewritten and `none`
when it is left untouched; the second is the removed-job count. -/
def remove_mailmerge_cron_jobs (lines : List (List Char)) :
    Option (List (List Char)) × Nat :=
  if lines.isEmpty then (none, 0)
  else
    let r := removeCore [] lines
    if r.2 > 0 then (some (dropTrailingBlankLines r.1), r.2) else (none, r.2)

/-- Keep the lines whose flag is `true`: the specification device for the
frame property of `remove_mailmerge_cron_jobs`. -/
def select : List (List Char) → List Bool → List (List Char)
  | [], _ => []
  | _ :: _, [] => []
  | l :: ls, b :: bs => if b then l :: select ls bs else select ls bs

/-- Every dropped line (flag `false`) is accounted for: it is a marker
line, or immediately follows a marker line, or is blank and either last
or immediately followed by another dropped line (i.e. it is a blank
separator adjacent to a removed block, or a trailing blank). -/
def dropJustified (rest : List (List Char)) (flags : List Bool) : Prop :=
  ∀ i, i < rest.length → flags.getD i true = false →
    isMarkerLine (rest.getD i []) = true ∨
    (1 ≤ i ∧ isMarkerLine (rest.getD (i - 1) []) = true) ∨
    (isBlankLine (rest.getD i []) = true ∧
      (i + 1 = rest.length ∨ flags.getD (i + 1) true = false))

/-! ## Lemmas about the minute scan -/

theorem scanFrom_some {f : CronFields} {fuel cand c : Nat}
    (h : scanFrom f fuel cand = some c) :
    cron_matches c f = true ∧ cand ≤ c ∧ c < cand + fuel ∧
      ∀ u, cand ≤ u → u < c → cron_matches u f = false := by
  induction fuel generalizing cand with
  | zero => simp [scanFrom] at h
  | succ n ih =>
    rw [scanFrom] at h
    by_cases hm : cron_matches cand f = true
    · rw [if_pos hm, Option.some_inj] at h
      subst h
      exact ⟨hm, Nat.le_refl _, by omega, fun u h1 h2 => by omega⟩
    · rw [if_neg hm] at h
      obtain ⟨hc, h1, h2, h3⟩ := ih h
      refine ⟨hc, by omega, by omega, fun u hu1 hu2 => ?_⟩
      rcases Nat.eq_or_lt_of_le hu1 with heq | hlt
      · rw [heq] at hm
        exact Bool.eq_false_iff.mpr hm
      · exact h3 u hlt hu2

theorem scanFrom_none {f : CronFields} {fuel cand : Nat}
    (h : scanFrom f fuel cand = none) :
    ∀ u, cand ≤ u → u < cand + fuel → cron_matches u f = false := by
  induction fuel generalizing cand with
  | zero => intro u h1 h2; omega
  | succ n ih =>
    rw [scanFrom] at h
    by_cases hm : cron_matches cand f = true
    · rw [if_pos hm] at h; exact absurd h (by simp)
    · rw [if_neg hm] at h
      intro u h1 h2
      rcases Nat.eq_or_lt_of_le h1 with heq | hlt
      · rw [heq] at hm; exact Bool.eq_false_iff.mpr hm
      · exact ih h u hlt (by omega)

theorem scanFrom_isSome {f : CronFields} {fuel cand : Nat}
    (h : ∃ u, cand ≤ u ∧ u < cand + fuel ∧ cron_matches u f = true) :
    ∃ c, scanFrom f fuel cand = some c := by
  cases hs : scanFrom f fuel cand with
  | some c => exact ⟨c, rfl⟩
  | none =>
    obtain ⟨u, h1, h2, h3⟩ := h
    exact absurd h3 (by rw [scanFrom_none hs u h1 h2]; simp)

/-- Unpacking of a successful `next_run_time` call. -/
theorem next_run_time_ok {spec : String} {f : CronFields} {startSec c : Nat}
    (hp : parse_cron_spec spec = some f)
    (h : next_run_time spec startSec = .ok c) :
    ∃ m, c = m * 60 ∧ cron_matches m f = true ∧ startSec / 60 + 1 ≤ m ∧
      m < startSec / 60 + 1 + searchWindow ∧
      ∀ u, startSec / 60 + 1 ≤ u → u < m → cron_matches u f = false := by
  simp only [next_run_time, hp] at h
  cases hs : scanFrom f searchWindow (startSec / 60 + 1) with
  | none => simp only [hs] at h; exact Except.noConfusion h
  | some m =>
    simp only [hs, Except.ok.injEq] at h
    obtain ⟨hm, h1, h2, h3⟩ := scanFrom_some hs
    exact ⟨m, h.symm, hm, h1, h2, h3⟩

/-- A successful `next_run_time` result is later than its start instant. -/
theorem next_run_time_gt {spec : String} {startSec c : Nat}
    (h : next_run_time spec startSec = .ok c) : startSec < c := by
  cases hp : parse_cron_spec spec with
  | none => simp only [next_run_time, hp] at h; exact Except.noConfusion h
  | some f =>
    obtain ⟨m, rfl, _, h1, _, _⟩ := next_run_time_ok hp h
    have := Nat.div_add_mod startSec 60
    have : startSec % 60 < 60 := Nat.mod_lt startSec (show 0 < 60 by omega)
    omega

/-- A successful `next_run_time` result is minute-aligned and satisfies
the spec. -/
theorem next_run_time_matches {spec : String} {startSec c : Nat}
    (h : next_run_time spec startSec = .ok c) :
    cronMatchesSpec spec c = true ∧ c % 60 = 0 := by
  cases hp : parse_cron_spec spec with
  | none => simp only [next_run_time, hp] at h; exact Except.noConfusion h
  | some f =>
    obtain ⟨m, rfl, hm, _, _, _⟩ := next_run_time_ok hp h
    constructor
    · rw [cronMatchesSpec, hp, Nat.mul_div_cancel m (by omega)]
      exact hm
    · exact Nat.mul_mod_left m 60

/-- A successful `next_run_time` from a minute-aligned start with
`startSec = s * 60` yields a result at least `startSec + 60`. -/
theorem next_run_time_aligned_ge {spec : String} {startSec c : Nat}
    (hal : startSec % 60 = 0)
    (h : next_run_time spec startSec = .ok c) : startSec + 60 ≤ c := by
  cases hp : parse_cron_spec spec with
  | none => simp only [next_run_time, hp] at h; exact Except.noConfusion h
  | some f =>
    obtain ⟨m, rfl, _, h1, _, _⟩ := next_run_time_ok hp h
    have := Nat.div_add_mod startSec 60
    omega

/-- C1: For a parseable cron spec that is satisfiable within the search
window, `next_run_time(spec, t)` returns the earliest minute-aligned
instant — scanning from `t + 1` minute truncated to the minute, i.e.
from minute index `t / 60 + 1` — that satisfies `cron_matches`; in
particular the returned instant satisfies the spec. -/
theorem next_run_finds_earliest_match (spec : String) (f : CronFields) (t : Nat)
    (hp : parse_cron_spec spec = some f)
    (hsat : ∃ u, t / 60 + 1 ≤ u ∧ u < t / 60 + 1 + searchWindow ∧
      cron_matches u f = true) :
    ∃ m, next_run_time spec t = .ok (m * 60) ∧ cron_matches m f = true ∧
      cronMatchesSpec spec (m * 60) = true ∧ t / 60 + 1 ≤ m ∧
      ∀ u, t / 60 + 1 ≤ u → u < m → cron_matches u f = false := by
  obtain ⟨c, hc⟩ := scanFrom_isSome hsat
  have hrun : next_run_time spec t = .ok (c * 60) := by
    simp only [next_run_time, hp, hc]
  obtain ⟨hm, h1, _, h3⟩ := scanFrom_some hc
  refine ⟨c, hrun, hm, ?_, h1, h3⟩
  exact (next_run_time_matches hrun).1

/-- Witness for C1 at the every-minute spec and `t = 0`. -/
theorem next_run_finds_earliest_match_witness :
    (parse_cron_spec "* * * * *" = some ⟨none, none, none, none, none⟩ ∧
      (0 / 60 + 1 ≤ 1 ∧ 1 < 0 / 60 + 1 + searchWindow ∧
        cron_matches 1 ⟨none, none, none, none, none⟩ = true)) ∧
    (∃ m, next_run_time "* * * * *" 0 = .ok (m * 60) ∧
      cron_matches m ⟨none, none, none, none, none⟩ = true ∧
      cronMatchesSpec "* * * * *" (m * 60) = true ∧ 0 / 60 + 1 ≤ m ∧
      ∀ u, 0 / 60 + 1 ≤ u → u < m →
        cron_matches u ⟨none, none, none, none, none⟩ = false) :=
  ⟨⟨by decide, by decide, by decide, by decide⟩,
    next_run_finds_earliest_match "* * * * *" ⟨none, none, none, none, none⟩ 0
      (by decide) ⟨1, by decide, by decide, by decide⟩⟩

/-- C8: `next_run_time` is total on parseable specs: it either returns a
matching candidate within the bounded window of 366 days past the first
candidate (`t / 60 + 1` … `t / 60 + 527041` in minutes), or fails with
the unsatisfiable-schedule error exactly when no minute in that window
matches; the fuelled scan never loops unboundedly. -/
theorem next_run_bounded_search (spec : String) (f : CronFields) (t : Nat)
    (hp : parse_cron_spec spec = some f) :
    (∃ m, next_run_time spec t = .ok (m * 60) ∧ cron_matches m f = true ∧
      t / 60 + 1 ≤ m ∧ m ≤ t / 60 + searchWindow) ∨
    (next_run_time spec t = .error .unsat ∧
      ∀ u, t / 60 + 1 ≤ u → u ≤ t / 60 + searchWindow → cron_matches u f = false) := by
  cases hs : scanFrom f searchWindow (t / 60 + 1) with
  | some m =>
    left
    obtain ⟨hm, h1, h2, _⟩ := scanFrom_some hs
    exact ⟨m, by simp only [next_run_time, hp, hs], hm, h1, by omega⟩
  | none =>
    right
    refine ⟨by simp only [next_run_time, hp, hs], fun u h1 h2 => ?_⟩
    exact scanFrom_none hs u h1 (by omega)

/-- Witness for C8 at the every-minute spec and `t = 0`. -/
theorem next_run_bounded_search_witness :
    parse_cron_spec "* * * * *" = some ⟨none, none, none, none, none⟩ ∧
    ((∃ m, next_run_time "* * * * *" 0 = .ok (m * 60) ∧
        cron_matches m ⟨none, none, none, none, none⟩ = true ∧
        0 / 60 + 1 ≤ m ∧ m ≤ 0 / 60 + searchWindow) ∨
      (next_run_time "* * * * *" 0 = .error .unsat ∧
        ∀ u, 0 / 60 + 1 ≤ u → u ≤ 0 / 60 + searchWindow →
          cron_matches u ⟨none, none, none, none, none⟩ = false)) :=
  ⟨by decide,
    next_run_bounded_search "* * * * *" ⟨none, none, none, none, none⟩ 0 (by decide)⟩

/-! ## The due-time state machine -/

/-- Unpacking of a successful fresh initialization. -/
theorem initFreshState_ok {spec : String} {now nd : Nat} {w : Option StateData}
    (h : initFreshState spec now = .ok (nd, w)) :
    w = some ⟨.val nd, .pres none⟩ ∧ next_run_time spec (now - 60) = .ok nd := by
  unfold initFreshState at h
  cases hn : next_run_time spec (now - 60) with
  | error e => rw [hn] at h; exact Except.noConfusion h
  | ok v =>
    rw [hn] at h
    simp only [Except.ok.injEq, Prod.mk.injEq] at h
    obtain ⟨h1, h2⟩ := h
    subst h1; subst h2
    exact ⟨rfl, rfl⟩

/-- C2: If `update_schedule_state` is called with the wall clock exactly at
the persisted `next_due` minute, the call reports due, persists
`last_run = now`, and advances `next_due` to
`next_run_time(spec, previous next_due)`, which is strictly after `now`;
an immediately following call at the same minute against the written
state reports not due with `next_due` unchanged and still past `now`, so
due is reported at most once per matching minute slot. -/
theorem check_and_advance_due_reported_once (spec : String) (now n1 : Nat)
    (st : StateData)
    (h0 : st.nextDue = .val now)
    (h1 : next_run_time spec now = .ok n1) :
    update_schedule_state spec now (some st) =
      .ok (true, n1, ⟨.val n1, .pres (some now)⟩) ∧
    now < n1 ∧
    update_schedule_state spec now (some ⟨.val n1, .pres (some now)⟩) =
      .ok (false, n1, ⟨.val n1, .pres (some now)⟩) := by
  have hlt : now < n1 := next_run_time_gt h1
  refine ⟨?_, hlt, ?_⟩
  · simp only [update_schedule_state, Option.getD_some, h0, h1, le_refl, if_true]
  · simp only [update_schedule_state, Option.getD_some]
    rw [if_neg (by omega)]

/-- Witness for C2: the every-minute spec, the clock at minute 1000, the
stored state due exactly now. -/
theorem check_and_advance_due_reported_once_witness :
    ((⟨.val 60000, .absent⟩ : StateData).nextDue = .val 60000 ∧
      next_run_time "* * * * *" 60000 = .ok 60060) ∧
    (update_schedule_state "* * * * *" 60000 (some ⟨.val 60000, .absent⟩) =
        .ok (true, 60060, ⟨.val 60060, .pres (some 60000)⟩) ∧
      60000 < 60060 ∧
      update_schedule_state "* * * * *" 60000
          (some ⟨.val 60060, .pres (some 60000)⟩) =
        .ok (false, 60060, ⟨.val 60060, .pres (some 60000)⟩)) :=
  ⟨⟨by decide, by decide⟩,
    check_and_advance_due_reported_once "* * * * *" 60000 60060
      ⟨.val 60000, .absent⟩ (by decide) (by decide)⟩

/-- Counterexample to C3: initializing a fresh state for the every-minute
spec at minute 1000 persists `next_due` equal to the current minute, not
strictly in the future. -/
theorem next_due_strict_future_cex :
    initialize_schedule_state "* * * * *" 60000 none false =
      .ok (60000, some ⟨.val 60000, .pres none⟩) ∧ ¬ (60000 < 60000) :=
  ⟨by decide, by omega⟩

/-- C3 (amended): after every operation of the due-time state machine the
persisted `next_due` satisfies the cron spec and is bounded below — it is
at least (not strictly after) the current minute after an initialization
that writes, and after a check: strictly after `now` when the check
reports not due, and strictly after the previous `next_due` when it
reports due (the stored `next_due`, when present and parseable, is
assumed to satisfy the spec, which the machine's own writes establish). -/
theorem next_due_matches_and_lower_bounds :
    (∀ (spec : String) (now : Nat) (file : Option StateData) (ow : Bool)
        (nd : Nat) (st' : StateData), 60 ≤ now → now % 60 = 0 →
        initialize_schedule_state spec now file ow = .ok (nd, some st') →
        st' = ⟨.val nd, .pres none⟩ ∧ cronMatchesSpec spec nd = true ∧ now ≤ nd) ∧
    (∀ (spec : String) (now : Nat) (st : StateData) (due : Bool)
        (nd : Nat) (st' : StateData), 60 ≤ now → now % 60 = 0 →
        st.nextDue ≠ .invalid →
        (∀ n, st.nextDue = .val n → cronMatchesSpec spec n = true) →
        update_schedule_state spec now (some st) = .ok (due, nd, st') →
        st'.nextDue = .val nd ∧ cronMatchesSpec spec nd = true ∧
          (due = false → now < nd) ∧
          (due = true → ∀ n, st.nextDue = .val n → n < nd)) := by
  constructor
  · intro spec now file ow nd st' h60 hal h
    have hfresh : initFreshState spec now = .ok (nd, some st') := by
      rcases file with _ | data
      · simp only [initialize_schedule_state] at h
        exact h
      · rcases ow with _ | _
        · simp only [initialize_schedule_state] at h
          cases hd : data.nextDue with
          | val t => simp [hd] at h
          | absent => simp only [hd] at h; exact h
          | invalid => simp only [hd] at h; exact h
        · simp only [initialize_schedule_state] at h
          exact h
    obtain ⟨hw, hn⟩ := initFreshState_ok hfresh
    obtain rfl : st' = (⟨.val nd, .pres none⟩ : StateData) := by
      exact Option.some.inj hw
    have hge := next_run_time_aligned_ge (show (now - 60) % 60 = 0 by omega) hn
    exact ⟨rfl, (next_run_time_matches hn).1, by omega⟩
  · intro spec now st due nd st' h60 hal hinv hmat h
    unfold update_schedule_state at h
    simp only [Option.getD_some] at h
    cases hd : st.nextDue with
    | invalid => exact absurd hd hinv
    | absent =>
      simp only [hd] at h
      cases hn : next_run_time spec (now - 60) with
      | error e => simp only [hn] at h; exact Except.noConfusion h
      | ok c =>
        simp only [hn] at h
        have hcge : now ≤ c := by
          have := next_run_time_aligned_ge (show (now - 60) % 60 = 0 by omega) hn
          omega
        by_cases hdue : c ≤ now
        · rw [if_pos hdue] at h
          cases ha : next_run_time spec c with
          | error e => simp only [ha] at h; exact Except.noConfusion h
          | ok n2 =>
            simp only [ha, Except.ok.injEq, Prod.mk.injEq] at h
            obtain ⟨hb, hnd, hst⟩ := h
            subst hb; subst hnd; subst hst
            refine ⟨rfl, (next_run_time_matches ha).1, ?_, ?_⟩
            · intro hf; exact absurd hf (by simp)
            · intro _ n hn'
              exact StoredDue.noConfusion hn'
        · rw [if_neg hdue] at h
          simp only [Except.ok.injEq, Prod.mk.injEq] at h
          obtain ⟨hb, hnd, hst⟩ := h
          subst hb; subst hnd; subst hst
          refine ⟨rfl, (next_run_time_matches hn).1, fun _ => by omega, ?_⟩
          intro hf; exact absurd hf (by simp)
    | val n =>
      simp only [hd] at h
      by_cases hdue : n ≤ now
      · rw [if_pos hdue] at h
        cases ha : next_run_time spec n with
        | error e => simp only [ha] at h; exact Except.noConfusion h
        | ok n2 =>
          simp only [ha, Except.ok.injEq, Prod.mk.injEq] at h
          obtain ⟨hb, hnd, hst⟩ := h
          subst hb; subst hnd; subst hst
          refine ⟨rfl, (next_run_time_matches ha).1, ?_, ?_⟩
          · intro hf; exact absurd hf (by simp)
          · intro _ n' hn'
            obtain rfl : n = n' := StoredDue.val.inj hn'
            exact next_run_time_gt ha
      · rw [if_neg hdue] at h
        simp only [Except.ok.injEq, Prod.mk.injEq] at h
        obtain ⟨hb, hnd, hst⟩ := h
        subst hb; subst hnd; subst hst
        refine ⟨rfl, hmat n hd, fun _ => by omega, ?_⟩
        intro hf; exact absurd hf (by simp)

/-- Witness for C3 (amended): the initialize part at a fresh file and the
update part at a stored state due exactly now, both for the every-minute
spec at minute 1000. -/
theorem next_due_matches_and_lower_bounds_witness :
    ((60 ≤ 60000 ∧ (60000 : Nat) % 60 = 0 ∧
        initialize_schedule_state "* * * * *" 60000 none false =
          .ok (60000, some ⟨.val 60000, .pres none⟩)) ∧
      ((⟨.val 60000, .pres none⟩ : StateData) = ⟨.val 60000, .pres none⟩ ∧
        cronMatchesSpec "* * * * *" 60000 = true ∧ 60000 ≤ 60000)) ∧
    ((⟨.val 60000, .absent⟩ : StateData).nextDue ≠ .invalid ∧
      update_schedule_state "* * * * *" 60000 (some ⟨.val 60000, .absent⟩) =
        .ok (true, 60060, ⟨.val 60060, .pres (some 60000)⟩)) ∧
    ((⟨.val 60060, .pres (some 60000)⟩ : StateData).nextDue = .val 60060 ∧
      cronMatchesSpec "* * * * *" 60060 = true ∧
      ((true : Bool) = false → 60000 < 60060) ∧
      ((true : Bool) = true → ∀ n, (⟨.val 60000, .absent⟩ : StateData).nextDue = .val n → n < 60060)) :=
  ⟨⟨⟨by omega, by omega, by decide⟩,
      next_due_matches_and_lower_bounds.1 "* * * * *" 60000 none false 60000
        ⟨.val 60000, .pres none⟩ (by omega) (by omega) (by decide)⟩,
    ⟨by decide, by decide⟩,
    next_due_matches_and_lower_bounds.2 "* * * * *" 60000 ⟨.val 60000, .absent⟩
      true 60060 ⟨.val 60060, .pres (some 60000)⟩ (by omega) (by omega)
      (by decide) (fun n hn => by
        obtain rfl : (60000 : Nat) = n := StoredDue.val.inj hn
        decide) (by decide)⟩

/-! ## The schedule normalizer -/

/-- C4: A full ISO date-time normalizes to the canonical spec
`minute hour day month *` and a bare time-of-day to `minute hour * * *`,
where the fields are extracted after attaching the source zone (the
value's own offset, else the timezone hint, else the machine's local
zone) to the value and converting it to the machine's local zone; in
particular normalizing `"2024-06-05T09:30"` with local zone UTC yields
`30 9 5 6 *`. -/
theorem iso_normalization_local_fields :
    (∀ (value : List Char) (tzHint : Option Int) (localZone nowUtcMin : Int)
        (dt : PyDateTime),
        pyDatetimeFromIso (zRewrite (pyStrip value)) = some dt →
        ∃ w : Int,
          w = (dtWallMinutes dt : Int) -
              (dt.tzOffMin.getD (tzHint.getD localZone)) + localZone ∧
          convert_iso_to_cron value tzHint localZone nowUtcMin =
            some (natToStr (minuteOf w.toNat) ++ " " ++ natToStr (hourOf w.toNat) ++
              " " ++ natToStr (dayOf w.toNat) ++ " " ++ natToStr (monthOf w.toNat) ++
              " *")) ∧
    (∀ (value : List Char) (tzHint : Option Int) (localZone nowUtcMin : Int)
        (tv : PyTime),
        pyDatetimeFromIso (zRewrite (pyStrip value)) = none →
        pyTimeFromIso (timeCandidate value) = some tv →
        ∃ w : Int,
          w = ((todayOrdinalInZone nowUtcMin
                  (tv.tzOffMin.getD (tzHint.getD localZone)) - 1) * 1440 +
                tv.hour * 60 + tv.minute : Nat) -
              (tv.tzOffMin.getD (tzHint.getD localZone)) + localZone ∧
          convert_iso_to_cron value tzHint localZone nowUtcMin =
            some (natToStr (minuteOf w.toNat) ++ " " ++ natToStr (hourOf w.toNat) ++
              " * * *")) ∧
    (∀ nowUtcMin : Int,
        normalize_schedule "2024-06-05T09:30" none 0 nowUtcMin =
          .ok ("30 9 5 6 *", "2024-06-05T09:30")) := by
  refine ⟨?_, ?_, ?_⟩
  · intro value tzHint localZone nowUtcMin dt hp
    refine ⟨_, rfl, ?_⟩
    simp only [convert_iso_to_cron, hp]
    rfl
  · intro value tzHint localZone nowUtcMin tv hp ht
    refine ⟨_, rfl, ?_⟩
    simp only [convert_iso_to_cron, hp, ht]
    rfl
  · intro nowUtcMin
    rfl

/-- Witness for C4: the date-time part at `"2024-06-05T09:30"` with no
hint and UTC local zone, and the time part at `"09:30"`. -/
theorem iso_normalization_local_fields_witness :
    (pyDatetimeFromIso (zRewrite (pyStrip "2024-06-05T09:30".data)) =
      some ⟨2024, 6, 5, 9, 30, 0, none⟩ ∧
      ∃ w : Int,
        w = (dtWallMinutes ⟨2024, 6, 5, 9, 30, 0, none⟩ : Int) -
            ((none : Option Int).getD ((none : Option Int).getD 0)) + 0 ∧
        convert_iso_to_cron "2024-06-05T09:30".data none 0 0 =
          some (natToStr (minuteOf w.toNat) ++ " " ++ natToStr (hourOf w.toNat) ++
            " " ++ natToStr (dayOf w.toNat) ++ " " ++ natToStr (monthOf w.toNat) ++
            " *")) ∧
    (pyDatetimeFromIso (zRewrite (pyStrip "09:30".data)) = none ∧
      pyTimeFromIso (timeCandidate "09:30".data) = some ⟨9, 30, 0, none⟩ ∧
      ∃ w : Int,
        w = ((todayOrdinalInZone 0 ((none : Option Int).getD ((none : Option Int).getD 0)) - 1) * 1440 +
              9 * 60 + 30 : Nat) -
            ((none : Option Int).getD ((none : Option Int).getD 0)) + 0 ∧
        convert_iso_to_cron "09:30".data none 0 0 =
          some (natToStr (minuteOf w.toNat) ++ " " ++ natToStr (hourOf w.toNat) ++
            " * * *")) :=
  ⟨⟨by decide,
      iso_normalization_local_fields.1 "2024-06-05T09:30".data none 0 0
        ⟨2024, 6, 5, 9, 30, 0, none⟩ (by decide)⟩,
    ⟨by decide, by decide,
      iso_normalization_local_fields.2.1 "09:30".data none 0 0
        ⟨9, 30, 0, none⟩ (by decide) (by decide)⟩⟩

/-- C5 (failing input): at the six-field schedule `"0 0 * * * *"` the
normalizer passes the expression through unmodified, but the downstream
consumers of the canonical spec do not ignore the extra field: the spec
parser behind the matcher and next-run calculator and both backend
converters all fail on the five-way field unpack. -/
theorem six_field_spec_breaks_downstream :
    normalize_schedule "0 0 * * * *" none 0 0 =
      .ok ("0 0 * * * *", "0 0 * * * *") ∧
    parse_cron_spec "0 0 * * * *" = none ∧
    next_run_time "0 0 * * * *" 0 = .error .badSpec ∧
    cron_to_launchd_interval "0 0 * * * *" = .error .fieldCount ∧
    cron_to_systemd_calendar "0 0 * * * *" = .error .fieldCount :=
  ⟨by decide, by decide, by decide, by decide, by decide⟩

/-- Counterexample to C6: normalization does not fail on the unknown macro
`"@bogus"`; both the normalizer and the full pipeline (normalization plus
macro-table lookup) return it unchanged as the canonical spec. -/
theorem unknown_alias_not_rejected_cex :
    prepare_schedule_spec "@bogus" none 0 0 = .ok ("@bogus", "@bogus") ∧
    normalize_schedule "@bogus" none 0 0 = .ok ("@bogus", "@bogus") :=
  ⟨by decide, by decide⟩

/-- C6 (amended): the known macros expand via the fixed lookup table
(`@yearly` → `0 0 1 1 *`, `@monthly` → `0 0 1 * *`, `@weekly` →
`0 0 * * 0`, `@daily`/`@midnight` → `0 0 * * *`, `@hourly` →
`0 * * * *`) with the display text unchanged, but an unknown macro is not
rejected: every stripped single-line `@`-prefixed expression outside the
table passes through unchanged as the canonical spec. -/
theorem alias_expansion_and_passthrough :
    (∀ (tzHint : Option Int) (localZone nowUtcMin : Int),
      prepare_schedule_spec "@yearly" tzHint localZone nowUtcMin =
        .ok ("0 0 1 1 *", "@yearly") ∧
      prepare_schedule_spec "@monthly" tzHint localZone nowUtcMin =
        .ok ("0 0 1 * *", "@monthly") ∧
      prepare_schedule_spec "@weekly" tzHint localZone nowUtcMin =
        .ok ("0 0 * * 0", "@weekly") ∧
      prepare_schedule_spec "@daily" tzHint localZone nowUtcMin =
        .ok ("0 0 * * *", "@daily") ∧
      prepare_schedule_spec "@midnight" tzHint localZone nowUtcMin =
        .ok ("0 0 * * *", "@midnight") ∧
      prepare_schedule_spec "@hourly" tzHint localZone nowUtcMin =
        .ok ("0 * * * *", "@hourly")) ∧
    (∀ (s : String) (tzHint : Option Int) (localZone nowUtcMin : Int),
      pyStrip s.data = s.data → containsCRLF s.data = false →
      s.data.head? = some '@' → aliasTable s = none →
      prepare_schedule_spec s tzHint localZone nowUtcMin = .ok (s, s)) := by
  constructor
  · intro tzHint localZone nowUtcMin
    exact ⟨rfl, rfl, rfl, rfl, rfl, rfl⟩
  · intro s tzHint localZone nowUtcMin hstrip hcrlf hhead halias
    have hmk : String.mk s.data = s := by cases s; rfl
    have hne : s.data.isEmpty = false := by
      cases hd : s.data with
      | nil => rw [hd] at hhead; exact Option.noConfusion hhead
      | cons a l => rfl
    simp only [prepare_schedule_spec, normalize_schedule, hstrip, hcrlf, hne,
      Bool.or_self, Bool.false_eq_true, if_false, hhead, hmk, halias,
      Option.getD_none, beq_self_eq_true, if_true]

/-- Witness for C6 (amended): the passthrough part at `"@bogus"`. -/
theorem alias_expansion_and_passthrough_witness :
    (pyStrip "@bogus".data = "@bogus".data ∧
      containsCRLF "@bogus".data = false ∧
      "@bogus".data.head? = some '@' ∧ aliasTable "@bogus" = none) ∧
    prepare_schedule_spec "@bogus" none 0 0 = .ok ("@bogus", "@bogus") :=
  ⟨⟨by decide, by decide, by decide, by decide⟩,
    alias_expansion_and_passthrough.2 "@bogus" none 0 0
      (by decide) (by decide) (by decide) (by decide)⟩

/-! ## Backend converters -/

/-- `_parse_numeric_field` on an all-digit field always succeeds with the
fixed value. -/
theorem parse_numeric_field_digits {f : List Char} (h : isDigits f = true)
    (b : Bool) : parse_numeric_field f b = .ok (some (digitsVal f)) := by
  unfold parse_numeric_field
  have hne : ¬ f = ['*'] := by
    intro he; subst he
    exact absurd h (by decide)
  rw [if_neg hne, if_pos h]

/-- C7: a canonical cron spec that fixes both the day-of-month and the
weekday field (both all-digit fields) is rejected by the launchd
calendar-interval converter and by the systemd calendar-expression
converter: both fail with an error instead of producing an artifact. -/
theorem converters_reject_day_weekday_conflict (spec : String)
    (f1 f2 f3 f4 f5 : List Char)
    (hs : pySplit spec.data = [f1, f2, f3, f4, f5])
    (hd : isDigits f3 = true) (hw : isDigits f5 = true) :
    (∃ e, cron_to_launchd_interval spec = .error e) ∧
    (∃ e, cron_to_systemd_calendar spec = .error e) := by
  constructor
  · simp only [cron_to_launchd_interval, hs, parse_numeric_field_digits hd,
      parse_numeric_field_digits hw, Option.isSome_some, Bool.and_self, if_true]
    cases hp1 : parse_numeric_field f1 false with
    | error e => exact ⟨e, rfl⟩
    | ok miv =>
      cases hp2 : parse_numeric_field f2 false with
      | error e => exact ⟨e, rfl⟩
      | ok hv =>
        cases hp4 : parse_numeric_field f4 true with
        | error e => exact ⟨e, rfl⟩
        | ok mov => exact ⟨.dayWeekdayConflict, rfl⟩
  · simp only [cron_to_systemd_calendar, hs, parse_numeric_field_digits hd,
      parse_numeric_field_digits hw, Option.isSome_some, Bool.and_self, if_true]
    cases hp1 : parse_numeric_field f1 false with
    | error e => exact ⟨e, rfl⟩
    | ok miv =>
      cases hp2 : parse_numeric_field f2 false with
      | error e => exact ⟨e, rfl⟩
      | ok hv =>
        cases hp4 : parse_numeric_field f4 true with
        | error e => exact ⟨e, rfl⟩
        | ok mov => exact ⟨.dayWeekdayConflict, rfl⟩

/-- Witness for C7 at the spec `"30 9 5 * 1"`. -/
theorem converters_reject_day_weekday_conflict_witness :
    (pySplit "30 9 5 * 1".data =
        [['3', '0'], ['9'], ['5'], ['*'], ['1']] ∧
      isDigits ['5'] = true ∧ isDigits ['1'] = true) ∧
    ((∃ e, cron_to_launchd_interval "30 9 5 * 1" = .error e) ∧
      (∃ e, cron_to_systemd_calendar "30 9 5 * 1" = .error e)) :=
  ⟨⟨by decide, by decide, by decide⟩,
    converters_reject_day_weekday_conflict "30 9 5 * 1"
      ['3', '0'] ['9'] ['5'] ['*'] ['1'] (by decide) (by decide) (by decide)⟩

/-- Counterexample to C9: the normalizer passes the out-of-range spec
`"99 99 99 99 99"` through unchanged, and its minute field parses to 99,
outside `[0, 59]`. -/
theorem normalizer_range_invariant_cex :
    normalize_schedule "99 99 99 99 99" none 0 0 =
      .ok ("99 99 99 99 99", "99 99 99 99 99") ∧
    parse_cron_spec "99 99 99 99 99" =
      some ⟨some 99, some 99, some 99, some 99, some 99⟩ ∧
    ¬ ((99 : Int) ≤ 59) :=
  ⟨by decide, by decide, by decide⟩

set_option maxRecDepth 4000 in
/-- The month walk stays within month 1–12 and day 1–31 for any 0-based
day-of-year below 365 (the only inputs `ord2ymd` feeds it). -/
theorem monthDayFromDoy_bounds : ∀ (leap : Bool) (doy : Fin 365),
    1 ≤ (monthDayFromDoy leap 12 1 doy.val).1 ∧
    (monthDayFromDoy leap 12 1 doy.val).1 ≤ 12 ∧
    1 ≤ (monthDayFromDoy leap 12 1 doy.val).2 ∧
    (monthDayFromDoy leap 12 1 doy.val).2 ≤ 31 := by decide

/-- The month and day components of `ord2ymd` are always within the
calendar ranges. -/
theorem ord2ymd_bounds (o : Nat) :
    1 ≤ (ord2ymd o).2.1 ∧ (ord2ymd o).2.1 ≤ 12 ∧
    1 ≤ (ord2ymd o).2.2 ∧ (ord2ymd o).2.2 ≤ 31 := by
  simp only [ord2ymd]
  split
  · simp
  · have hlt : (o - 1) % 146097 % 36524 % 1461 % 365 < 365 :=
      Nat.mod_lt _ (by omega)
    obtain ⟨a, b, c, d⟩ := monthDayFromDoy_bounds
      (isLeapYear (400 * ((o - 1) / 146097) + 100 * ((o - 1) % 146097 / 36524) +
        4 * ((o - 1) % 146097 % 36524 / 1461) +
        (o - 1) % 146097 % 36524 % 1461 / 365 + 1))
      ⟨(o - 1) % 146097 % 36524 % 1461 % 365, hlt⟩
    exact ⟨a, b, c, d⟩

theorem minuteOf_le (t : Nat) : minuteOf t ≤ 59 := by unfold minuteOf; omega

theorem hourOf_le (t : Nat) : hourOf t ≤ 23 := by unfold hourOf; omega

/-- C9 (amended): canonical specs produced by the ISO-8601 normalization
path and by the macro table have every fixed field within its valid range
(minute ∈ [0,59], hour ∈ [0,23], day ∈ [1,31], month ∈ [1,12],
weekday ∈ [0,7]); 5/6-field cron expressions, however, are passed
through by the normalizer without any range validation (see the
counterexample). -/
theorem generated_specs_in_range :
    (∀ (value : List Char) (tzHint : Option Int) (localZone nowUtcMin : Int)
        (s : String),
      convert_iso_to_cron value tzHint localZone nowUtcMin = some s →
      (∃ mi h d mo, s = natToStr mi ++ " " ++ natToStr h ++ " " ++ natToStr d ++
          " " ++ natToStr mo ++ " *" ∧
          mi ≤ 59 ∧ h ≤ 23 ∧ 1 ≤ d ∧ d ≤ 31 ∧ 1 ≤ mo ∧ mo ≤ 12) ∨
      (∃ mi h, s = natToStr mi ++ " " ++ natToStr h ++ " * * *" ∧
          mi ≤ 59 ∧ h ≤ 23)) ∧
    (∀ (a s : String), aliasTable a = some s → specInRange s = true) := by
  constructor
  · intro value tzHint localZone nowUtcMin s h
    cases hp : pyDatetimeFromIso (zRewrite (pyStrip value)) with
    | some dt =>
      simp only [convert_iso_to_cron, hp, Option.some.injEq] at h
      left
      refine ⟨_, _, _, _, h.symm, minuteOf_le _, hourOf_le _, ?_, ?_, ?_, ?_⟩
      · exact (ord2ymd_bounds _).2.2.1
      · exact (ord2ymd_bounds _).2.2.2
      · exact (ord2ymd_bounds _).1
      · exact (ord2ymd_bounds _).2.1
    | none =>
      cases ht : pyTimeFromIso (timeCandidate value) with
      | some tv =>
        simp only [convert_iso_to_cron, hp, ht, Option.some.injEq] at h
        right
        exact ⟨_, _, h.symm, minuteOf_le _, hourOf_le _⟩
      | none =>
        simp only [convert_iso_to_cron, hp, ht] at h
        exact Option.noConfusion h
  · intro a s h
    unfold aliasTable at h
    split_ifs at h
    all_goals exact (Option.some.inj h) ▸ (by decide)

/-- Witness for C9 (amended): the ISO part at `"2024-06-05T09:30"` and the
table part at `"@yearly"`. -/
theorem generated_specs_in_range_witness :
    (convert_iso_to_cron "2024-06-05T09:30".data none 0 0 = some "30 9 5 6 *" ∧
      ((∃ mi h d mo, "30 9 5 6 *" = natToStr mi ++ " " ++ natToStr h ++ " " ++
          natToStr d ++ " " ++ natToStr mo ++ " *" ∧
          mi ≤ 59 ∧ h ≤ 23 ∧ 1 ≤ d ∧ d ≤ 31 ∧ 1 ≤ mo ∧ mo ≤ 12) ∨
        (∃ mi h, "30 9 5 6 *" = natToStr mi ++ " " ++ natToStr h ++ " * * *" ∧
          mi ≤ 59 ∧ h ≤ 23))) ∧
    (aliasTable "@yearly" = some "0 0 1 1 *" ∧ specInRange "0 0 1 1 *" = true) :=
  ⟨⟨by decide,
      generated_specs_in_range.1 "2024-06-05T09:30".data none 0 0 "30 9 5 6 *"
        (by decide)⟩,
    ⟨by decide, generated_specs_in_range.2 "@yearly" "0 0 1 1 *" (by decide)⟩⟩

/-! ## Crontab removal: the frame property -/

theorem dropJustified_nil : dropJustified [] [] := by
  intro i hi
  simp at hi

/-- Extending a justified drop pattern with a kept or justified-dropped
head line. -/
theorem dropJustified_cons {l : List Char} {b : Bool} {rest : List (List Char)}
    {flags : List Bool} (h : dropJustified rest flags)
    (hb : b = false → isMarkerLine l = true ∨
      (isBlankLine l = true ∧ (rest.length = 0 ∨ flags.getD 0 true = false))) :
    dropJustified (l :: rest) (b :: flags) := by
  intro i hi hf
  match i with
  | 0 =>
    rcases hb (by simpa using hf) with hm | ⟨hbl, hnext⟩
    · exact Or.inl (by simpa using hm)
    · refine Or.inr (Or.inr ⟨by simpa using hbl, ?_⟩)
      rcases hnext with h0 | h0
      · left; simp only [List.length_cons]; omega
      · right; simpa using h0
  | Nat.succ j =>
    have hj : j < rest.length := by simp at hi; omega
    have hfj : flags.getD j true = false := by simpa using hf
    rcases h j hj hfj with hm | ⟨h1, hm⟩ | ⟨hbl, hnext⟩
    · left; simpa using hm
    · right; left
      refine ⟨by omega, ?_⟩
      have he : j + 1 - 1 = (j - 1) + 1 := by omega
      rw [he]
      simpa using hm
    · right; right
      refine ⟨by simpa using hbl, ?_⟩
      rcases hnext with h0 | h0
      · left; simp only [List.length_cons]; omega
      · right; simpa using h0

/-- Extending a justified drop pattern with a dropped marker line and its
dropped follower. -/
theorem dropJustified_cons_marker {m x : List Char} {rest : List (List Char)}
    {flags : List Bool} (hm : isMarkerLine m = true) (h : dropJustified rest flags) :
    dropJustified (m :: x :: rest) (false :: false :: flags) := by
  intro i hi hf
  match i with
  | 0 => exact Or.inl (by simpa using hm)
  | 1 => exact Or.inr (Or.inl ⟨le_refl 1, by simpa using hm⟩)
  | Nat.succ (Nat.succ j) =>
    have hj : j < rest.length := by simp at hi; omega
    have hfj : flags.getD j true = false := by simpa using hf
    rcases h j hj hfj with hm' | ⟨h1, hm'⟩ | ⟨hbl, hnext⟩
    · left; simpa using hm'
    · right; left
      refine ⟨by omega, ?_⟩
      have he : j + 1 + 1 - 1 = (j - 1) + 1 + 1 := by omega
      rw [he]
      simpa using hm'
    · right; right
      refine ⟨by simpa using hbl, ?_⟩
      rcases hnext with h0 | h0
      · left; simp only [List.length_cons]; omega
      · right; simpa using h0

/-- When no line is a marker, the scanning loop keeps everything and
counts nothing. -/
theorem removeCore_no_marker (rest : List (List Char)) :
    ∀ acc, (∀ l ∈ rest, isMarkerLine l = false) →
      removeCore acc rest = (acc ++ rest, 0) := by
  induction rest with
  | nil => intro acc _; simp [removeCore]
  | cons line rest ih =>
    intro acc h
    have hl : isMarkerLine line = false := h line (by simp)
    simp only [removeCore, hl, Bool.false_eq_true, if_false]
    rw [ih (acc ++ [line]) (fun l hm => h l (by simp [hm]))]
    simp

/-- An empty selection over matching lengths means every flag is false. -/
theorem select_eq_nil_all_false :
    ∀ (ls : List (List Char)) (bs : List Bool), bs.length = ls.length →
      select ls bs = [] → ∀ j, j < ls.length → bs.getD j true = false := by
  intro ls
  induction ls with
  | nil => intro bs _ _ j hj; simp at hj
  | cons l ls ih =>
    intro bs hlen hs j hj
    cases bs with
    | nil => simp at hlen
    | cons b bs' =>
      cases b with
      | true => simp [select] at hs
      | false =>
        match j with
        | 0 => rfl
        | Nat.succ j' =>
          have hs' : select ls bs' = [] := by simpa [select] using hs
          have := ih bs' (by simp at hlen; omega) hs' j' (by simp at hj; omega)
          simpa using this

theorem select_cons_true (l : List Char) (ls : List (List Char)) (bs : List Bool) :
    select (l :: ls) (true :: bs) = l :: select ls bs := by simp [select]

theorem select_cons_false (l : List Char) (ls : List (List Char)) (bs : List Bool) :
    select (l :: ls) (false :: bs) = select ls bs := by simp [select]

/-- Reading inside a `take` below the cut. -/
theorem getD_take_lt {l : List (List Char)} {nn i : Nat} (h : i < nn) :
    (l.take nn).getD i [] = l.getD i [] := by
  simp [List.getD_eq_getElem?_getD, List.getElem?_take, h]

/-- The blank pop keeps a prefix of the accumulator and drops only a blank
entry. -/
theorem popBlank_spec (acc : List (List Char)) :
    ∃ k0, k0 ≤ acc.length ∧ popBlank acc = acc.take k0 ∧
      ∀ j, k0 ≤ j → j < acc.length → isBlankLine (acc.getD j []) = true := by
  rcases hlast : acc.getLast? with _ | last
  · obtain rfl : acc = [] := List.getLast?_eq_none_iff.mp hlast
    exact ⟨0, by simp, by simp [popBlank], fun j h1 h2 => by simp at h2⟩
  · have hpb0 : popBlank acc =
        if isBlankLine last = true then acc.dropLast else acc := by
      unfold popBlank
      rw [hlast]
    by_cases hbl : isBlankLine last = true
    · rw [if_pos hbl] at hpb0
      refine ⟨acc.length - 1, by omega, by rw [hpb0, List.dropLast_eq_take], ?_⟩
      intro j h1 h2
      obtain rfl : j = acc.length - 1 := by omega
      have hg : acc.getD (acc.length - 1) [] = last := by
        rw [List.getD_eq_getElem?_getD, ← List.getLast?_eq_getElem?, hlast]
        rfl
      rw [hg]
      exact hbl
    · rw [if_neg hbl] at hpb0
      exact ⟨acc.length, le_refl _, by rw [hpb0, List.take_length],
        fun j h1 h2 => by omega⟩

/-- Decomposition of the scanning loop: the output is a prefix of the
accumulator followed by a flagged selection of the remaining lines; every
dropped accumulator entry is blank, a drop inside the accumulator forces
the first remaining line to be dropped, and every drop among the
remaining lines is justified. -/
theorem removeCore_decomp :
    ∀ (n : Nat) (rest : List (List Char)), rest.length ≤ n →
    ∀ (acc : List (List Char)), (∀ a ∈ acc, isMarkerLine a = false) →
    ∃ (k : Nat) (flags : List Bool),
      k ≤ acc.length ∧ flags.length = rest.length ∧
      (removeCore acc rest).1 = acc.take k ++ select rest flags ∧
      (∀ j, k ≤ j → j < acc.length → isBlankLine (acc.getD j []) = true) ∧
      (k < acc.length → flags.getD 0 true = false) ∧
      dropJustified rest flags := by
  intro n
  induction n with
  | zero =>
    intro rest hlen acc _
    obtain rfl : rest = [] := List.eq_nil_of_length_eq_zero (by omega)
    exact ⟨acc.length, [], le_refl _, rfl, by simp [removeCore, select],
      fun j h1 h2 => by omega, fun hk => by omega, dropJustified_nil⟩
  | succ nn ih =>
    intro rest hlen acc hacc
    cases rest with
    | nil =>
      exact ⟨acc.length, [], le_refl _, rfl, by simp [removeCore, select],
        fun j h1 h2 => by omega, fun hk => by omega, dropJustified_nil⟩
    | cons line rest' =>
      by_cases hm : isMarkerLine line = true
      · obtain ⟨k0, hk0, hpop, hbl0⟩ := popBlank_spec acc
        have hacc' : ∀ a ∈ popBlank acc, isMarkerLine a = false := by
          rw [hpop]
          exact fun a ha => hacc a (List.take_subset k0 acc ha)
        have hplen : (popBlank acc).length = k0 := by
          rw [hpop, List.length_take]
          omega
        cases rest' with
        | nil =>
          have hcomp : removeCore acc [line] = (popBlank acc, 1) := by
            simp only [removeCore]
            rw [if_pos hm]
          refine ⟨k0, [false], hk0, rfl, ?_, hbl0, fun _ => rfl, ?_⟩
          · rw [hcomp, hpop]
            simp [select]
          · exact dropJustified_cons dropJustified_nil (fun _ => Or.inl hm)
        | cons x rest2 =>
          have hcomp : removeCore acc (line :: x :: rest2) =
              ((removeCore (popBlank acc) rest2).1,
                (removeCore (popBlank acc) rest2).2 + 1) := by
            simp only [removeCore]
            rw [if_pos hm]
          obtain ⟨k'', flags'', hk'', hlen'', hout'', hdrop'', _, hjust''⟩ :=
            ih rest2 (by simp at hlen; omega) (popBlank acc) hacc'
          have hk''0 : k'' ≤ k0 := by omega
          refine ⟨k'', false :: false :: flags'', by omega, by simp [hlen''],
            ?_, ?_, fun _ => rfl, dropJustified_cons_marker hm hjust''⟩
          · rw [hcomp]
            show (removeCore (popBlank acc) rest2).1 =
              acc.take k'' ++ select (line :: x :: rest2) (false :: false :: flags'')
            rw [hout'', hpop, select_cons_false, select_cons_false,
              List.take_take, Nat.min_eq_left hk''0]
          · intro j h1 h2
            by_cases hj0 : j < k0
            · have := hdrop'' j h1 (by omega)
              rw [hpop, getD_take_lt hj0] at this
              exact this
            · exact hbl0 j (by omega) h2
      · have hm' : isMarkerLine line = false := by
          cases hml : isMarkerLine line
          · rfl
          · exact absurd hml hm
        have hcomp : removeCore acc (line :: rest') =
            removeCore (acc ++ [line]) rest' := by
          simp only [removeCore]
          rw [if_neg hm]
        have hacc2 : ∀ a ∈ acc ++ [line], isMarkerLine a = false := by
          intro a ha
          rcases List.mem_append.mp ha with h | h
          · exact hacc a h
          · obtain rfl : a = line := by simpa using h
            exact hm'
        obtain ⟨k', flags', hk', hlen', hout', hdrop', hklt', hjust'⟩ :=
          ih rest' (by simp at hlen; omega) (acc ++ [line]) hacc2
        have hlen2 : (acc ++ [line]).length = acc.length + 1 := by simp
        by_cases hk : k' ≤ acc.length
        · refine ⟨k', false :: flags', hk, by simp [hlen'], ?_, ?_, fun _ => rfl, ?_⟩
          · rw [hcomp, hout', List.take_append_of_le_length hk, select_cons_false]
          · intro j h1 h2
            have := hdrop' j h1 (by omega)
            rw [List.getD_append _ _ _ _ h2] at this
            exact this
          · refine dropJustified_cons hjust' (fun _ => Or.inr ⟨?_, ?_⟩)
            · have := hdrop' acc.length hk (by omega)
              rw [List.getD_append_right _ _ _ _ (le_refl _)] at this
              simpa using this
            · right
              exact hklt' (by omega)
        · have hk'eq : k' = acc.length + 1 := by omega
          refine ⟨acc.length, true :: flags', le_refl _, by simp [hlen'], ?_,
            fun j h1 h2 => by omega, fun hlt => by omega, ?_⟩
          · rw [hcomp, hout', hk'eq, ← hlen2, List.take_length, select_cons_true,
              List.take_length]
            simp
          · exact dropJustified_cons hjust' (fun hff => absurd hff (by decide))

/-- Head unfolding of the trailing-blank trim. -/
theorem dropTrailing_cons (x : List Char) (xs : List (List Char)) :
    dropTrailingBlankLines (x :: xs) =
      if dropTrailingBlankLines xs = [] then
        (if isBlankLine x then [] else [x])
      else x :: dropTrailingBlankLines xs := by
  unfold dropTrailingBlankLines
  rw [List.reverse_cons, List.dropWhile_append]
  by_cases he : (xs.reverse.dropWhile isBlankLine).isEmpty = true
  · rw [if_pos he]
    have h2 : (xs.reverse.dropWhile isBlankLine).reverse = [] := by
      rw [List.isEmpty_iff] at he
      rw [he]
      rfl
    rw [if_pos h2]
    by_cases hb : isBlankLine x = true
    · simp [List.dropWhile, hb]
    · simp [List.dropWhile, hb]
  · rw [if_neg he]
    have h2 : ¬ (xs.reverse.dropWhile isBlankLine).reverse = [] := by
      rw [List.isEmpty_iff] at he
      simpa using he
    rw [if_neg h2]
    simp

/-- Trimming the trailing blanks of a selection is itself a selection with
pointwise-lower flags, and every newly dropped line is blank and
followed only by dropped lines. -/
theorem trim_select :
    ∀ (ls : List (List Char)) (bs : List Bool), bs.length = ls.length →
    ∃ bs', bs'.length = ls.length ∧
      select ls bs' = dropTrailingBlankLines (select ls bs) ∧
      (∀ i, bs.getD i true = false → bs'.getD i true = false) ∧
      (∀ i, i < ls.length → bs'.getD i true = false →
        bs.getD i true = false ∨
        (isBlankLine (ls.getD i []) = true ∧
          (i + 1 = ls.length ∨ bs'.getD (i + 1) true = false))) := by
  intro ls
  induction ls with
  | nil =>
    intro bs hlen
    obtain rfl : bs = [] := List.eq_nil_of_length_eq_zero hlen
    exact ⟨[], rfl, rfl, fun i hi => hi, fun i hi => by simp at hi⟩
  | cons l ls ih =>
    intro bs hlen
    cases bs with
    | nil => simp at hlen
    | cons b bs0 =>
      obtain ⟨bs', hlen', hsel, hmono, hjust⟩ := ih bs0 (by simp at hlen; omega)
      cases b with
      | false =>
        refine ⟨false :: bs', by simp [hlen'], ?_, ?_, ?_⟩
        · rw [select_cons_false, select_cons_false, hsel]
        · intro i hi
          match i with
          | 0 => rfl
          | Nat.succ j => simpa using hmono j (by simpa using hi)
        · intro i hi hf
          match i with
          | 0 => exact Or.inl rfl
          | Nat.succ j =>
            rcases hjust j (by simp at hi; omega) (by simpa using hf) with
              h | ⟨hbl, hn⟩
            · left; simpa using h
            · right
              refine ⟨by simpa using hbl, ?_⟩
              rcases hn with h | h
              · left; simp only [List.length_cons]; omega
              · right; simpa using h
      | true =>
        rw [select_cons_true, dropTrailing_cons]
        by_cases hnil : dropTrailingBlankLines (select ls bs0) = []
        · by_cases hbl : isBlankLine l = true
          · have hsel0 : select ls bs' = [] := by rw [hsel, hnil]
            refine ⟨false :: bs', by simp [hlen'], ?_, ?_, ?_⟩
            · rw [if_pos hnil, if_pos hbl, select_cons_false, hsel0]
            · intro i hi
              match i with
              | 0 => simp at hi
              | Nat.succ j => simpa using hmono j (by simpa using hi)
            · intro i hi hf
              match i with
              | 0 =>
                right
                refine ⟨by simpa using hbl, ?_⟩
                cases hls : ls with
                | nil => left; simp [hls]
                | cons y ys =>
                  right
                  have h0 : bs'.getD 0 true = false := by
                    refine select_eq_nil_all_false ls bs' hlen' hsel0 0 ?_
                    rw [hls]
                    simp
                  simpa using h0
              | Nat.succ j =>
                rcases hjust j (by simp at hi; omega) (by simpa using hf) with
                  h | ⟨hbl2, hn⟩
                · left; simpa using h
                · right
                  refine ⟨by simpa using hbl2, ?_⟩
                  rcases hn with h | h
                  · left; simp only [List.length_cons]; omega
                  · right; simpa using h
          · refine ⟨true :: bs', by simp [hlen'], ?_, ?_, ?_⟩
            · rw [if_pos hnil, if_neg hbl, select_cons_true, hsel, hnil]
            · intro i hi
              match i with
              | 0 => simp at hi
              | Nat.succ j => simpa using hmono j (by simpa using hi)
            · intro i hi hf
              match i with
              | 0 => simp at hf
              | Nat.succ j =>
                rcases hjust j (by simp at hi; omega) (by simpa using hf) with
                  h | ⟨hbl2, hn⟩
                · left; simpa using h
                · right
                  refine ⟨by simpa using hbl2, ?_⟩
                  rcases hn with h | h
                  · left; simp only [List.length_cons]; omega
                  · right; simpa using h
        · refine ⟨true :: bs', by simp [hlen'], ?_, ?_, ?_⟩
          · rw [if_neg hnil, select_cons_true, hsel]
          · intro i hi
            match i with
            | 0 => simp at hi
            | Nat.succ j => simpa using hmono j (by simpa using hi)
          · intro i hi hf
            match i with
            | 0 => simp at hf
            | Nat.succ j =>
              rcases hjust j (by simp at hi; omega) (by simpa using hf) with
                h | ⟨hbl2, hn⟩
              · left; simpa using h
              · right
                refine ⟨by simpa using hbl2, ?_⟩
                rcases hn with h | h
                · left; simp only [List.length_cons]; omega
                · right; simpa using h

/-- C10: frame property of `remove_mailmerge_cron_jobs`: when no marker
line is present the crontab is not rewritten and the count is zero, and
when a rewrite happens the new crontab is a flagged selection of the old
lines (every kept line unchanged and in its original relative order)
where every dropped line is a marker line, the line immediately
following a marker line, or a blank line adjacent to removed content or
trailing at the end. -/
theorem remove_cron_jobs_frame :
    (∀ lines : List (List Char), (∀ l ∈ lines, isMarkerLine l = false) →
        remove_mailmerge_cron_jobs lines = (none, 0)) ∧
    (∀ (lines out : List (List Char)) (n : Nat),
        remove_mailmerge_cron_jobs lines = (some out, n) →
        ∃ flags : List Bool, flags.length = lines.length ∧
          out = select lines flags ∧ dropJustified lines flags) := by
  constructor
  · intro lines h
    by_cases he : lines.isEmpty = true
    · unfold remove_mailmerge_cron_jobs
      rw [if_pos he]
    · have hr : removeCore [] lines = (lines, 0) := by
        rw [removeCore_no_marker lines [] h]
        simp
      unfold remove_mailmerge_cron_jobs
      rw [if_neg he]
      simp [hr]
  · intro lines out n h
    unfold remove_mailmerge_cron_jobs at h
    by_cases he : lines.isEmpty = true
    · rw [if_pos he] at h
      simp at h
    · rw [if_neg he] at h
      by_cases hp : (removeCore [] lines).2 > 0
      · rw [if_pos hp] at h
        simp only [Prod.mk.injEq, Option.some.injEq] at h
        obtain ⟨hout, _⟩ := h
        obtain ⟨k, flags, hk, hlenf, hcore, _, _, hjust⟩ :=
          removeCore_decomp lines.length lines (le_refl _) [] (by simp)
        obtain rfl : k = 0 := by simpa using hk
        have hcore' : (removeCore [] lines).1 = select lines flags := by
          rw [hcore]
          simp
        obtain ⟨flags', hlen', hsel, hmono, hjust'⟩ := trim_select lines flags hlenf
        refine ⟨flags', hlen', ?_, ?_⟩
        · rw [← hout, hcore', ← hsel]
        · intro i hi hf
          rcases hjust' i hi hf with hft | ⟨hbl, hn⟩
          · rcases hjust i hi hft with hm | hpred | ⟨hbl, hn⟩
            · exact Or.inl hm
            · exact Or.inr (Or.inl hpred)
            · refine Or.inr (Or.inr ⟨hbl, ?_⟩)
              rcases hn with h0 | h0
              · exact Or.inl h0
              · exact Or.inr (hmono _ h0)
          · exact Or.inr (Or.inr ⟨hbl, hn⟩)
      · rw [if_neg hp] at h
        simp at h

/-- Witness for C10: a crontab with one mailmerge block between unrelated
lines, and a crontab with no marker at all. -/
theorem remove_cron_jobs_frame_witness :
    ((∀ l ∈ [['a'], ['b']], isMarkerLine l = false) ∧
      remove_mailmerge_cron_jobs [['a'], ['b']] = (none, 0)) ∧
    (remove_mailmerge_cron_jobs
        [['a'], [], ("# mailmerge schedule: x".data), ['c'], ['b']] =
        (some [['a'], ['b']], 1) ∧
      ∃ flags : List Bool,
        flags.length =
          [['a'], [], ("# mailmerge schedule: x".data), ['c'], ['b']].length ∧
        [['a'], ['b']] =
          select [['a'], [], ("# mailmerge schedule: x".data), ['c'], ['b']] flags ∧
        dropJustified [['a'], [], ("# mailmerge schedule: x".data), ['c'], ['b']]
          flags) :=
  ⟨⟨by decide, remove_cron_jobs_frame.1 [['a'], ['b']] (by decide)⟩,
    ⟨by decide,
      remove_cron_jobs_frame.2
        [['a'], [], ("# mailmerge schedule: x".data), ['c'], ['b']]
        [['a'], ['b']] 1 (by decide)⟩⟩

end Mailmerge
